import Mathlib

/-!
Verification of the text-complexity analysis pipeline of
`vialandd/text_complexity_analyzer` (`src/analyzer/utils.py`), as a shallow
embedding.  Pure computations of the Python source (rounding, Jaccard
similarity, per-sentence difficulty scoring, n-gram repetition, corpus-rarity
bucketing, report assembly) are translated into executable Lean definitions.
External linguistic resources that are libraries, not code of this repository
(the NLTK tokenizers, the perceptron POS tagger, the VADER sentiment analyzer,
the NE chunker, textstat's Flesch formula, and matplotlib's rendering of a
figure to PNG bytes) are abstracted as function-valued fields of an `Env`
record; every claim is proved for an arbitrary `Env`, concrete instances serve
as witnesses.  Machine floats of the source are modelled as exact rationals,
with Python's `round` (banker's rounding to `n` decimals) embedded explicitly.
-/

/-- Python's `round` at integer precision: round half to even. -/
def pyRoundInt (q : ℚ) : ℤ :=
  if q - ⌊q⌋ < 1/2 then ⌊q⌋
  else if 1/2 < q - ⌊q⌋ then ⌊q⌋ + 1
  else if ⌊q⌋ % 2 = 0 then ⌊q⌋ else ⌊q⌋ + 1

/-- Python's `round(q, n)`: round to `n` decimal places, half to even. -/
def roundTo (n : ℕ) (q : ℚ) : ℚ := (pyRoundInt (q * 10 ^ n) : ℚ) / 10 ^ n

theorem le_pyRoundInt {a : ℤ} {q : ℚ} (h : (a : ℚ) ≤ q) : a ≤ pyRoundInt q := by
  have hf : a ≤ ⌊q⌋ := Int.le_floor.mpr h
  unfold pyRoundInt
  split
  · exact hf
  split
  · omega
  split
  · exact hf
  · omega

theorem pyRoundInt_le {b : ℤ} {q : ℚ} (h : q ≤ (b : ℚ)) : pyRoundInt q ≤ b := by
  have hfl : (⌊q⌋ : ℚ) ≤ q := Int.floor_le q
  have hfb : ⌊q⌋ ≤ b := by
    have := Int.floor_le_floor (α := ℚ) h
    simpa using this
  unfold pyRoundInt
  split
  · exact hfb
  · have hlt : (⌊q⌋ : ℚ) < q := by
      rename_i hnot
      push_neg at hnot
      have : (0 : ℚ) < q - ⌊q⌋ := lt_of_lt_of_le (by norm_num) hnot
      linarith
    have : ⌊q⌋ < b := by
      have : (⌊q⌋ : ℚ) < (b : ℚ) := lt_of_lt_of_le hlt h
      exact_mod_cast this
    split
    · omega
    split
    · omega
    · omega

theorem abs_pyRoundInt_sub (q : ℚ) : |(pyRoundInt q : ℚ) - q| ≤ 1/2 := by
  have hfl : (⌊q⌋ : ℚ) ≤ q := Int.floor_le q
  have hfu : q < ⌊q⌋ + 1 := Int.lt_floor_add_one q
  unfold pyRoundInt
  split
  · rename_i h
    rw [abs_le]
    constructor <;> linarith
  · rename_i h
    push_neg at h
    split
    · rename_i h2
      rw [abs_le]
      push_cast
      constructor <;> linarith
    · rename_i h2
      push_neg at h2
      have heq : q - ⌊q⌋ = 1/2 := le_antisymm h2 h
      split <;> (rw [abs_le]; push_cast; constructor <;> linarith)

theorem abs_roundTo_sub (n : ℕ) (q : ℚ) : |roundTo n q - q| ≤ 1 / (2 * 10 ^ n) := by
  have hpow : (0 : ℚ) < 10 ^ n := by positivity
  have h := abs_pyRoundInt_sub (q * 10 ^ n)
  have : roundTo n q - q = ((pyRoundInt (q * 10 ^ n) : ℚ) - q * 10 ^ n) / 10 ^ n := by
    unfold roundTo
    field_simp
    ring
  rw [this, abs_div, abs_of_pos hpow]
  rw [div_le_div_iff₀ hpow (by positivity)]
  calc |(pyRoundInt (q * 10 ^ n) : ℚ) - q * 10 ^ n| * (2 * 10 ^ n)
      ≤ (1/2) * (2 * 10 ^ n) := by
        apply mul_le_mul_of_nonneg_right h (by positivity)
    _ = 1 * 10 ^ n := by ring

theorem roundTo_nonneg {q : ℚ} (n : ℕ) (h : 0 ≤ q) : 0 ≤ roundTo n q := by
  have hpow : (0 : ℚ) < 10 ^ n := by positivity
  have : (0 : ℤ) ≤ pyRoundInt (q * 10 ^ n) :=
    le_pyRoundInt (by positivity)
  unfold roundTo
  positivity

theorem roundTo_zero (n : ℕ) : roundTo n 0 = 0 := by
  unfold roundTo pyRoundInt
  norm_num

/-- `roundTo` does not move a value past an integer bound scaled into range:
if `q ≤ b / 10 ^ n` with `b` an integer then `roundTo n q ≤ b / 10 ^ n`. -/
theorem roundTo_le_of_le {q : ℚ} {b : ℤ} (n : ℕ) (h : q ≤ (b : ℚ) / 10 ^ n) :
    roundTo n q ≤ (b : ℚ) / 10 ^ n := by
  have hpow : (0 : ℚ) < 10 ^ n := by positivity
  have hb : q * 10 ^ n ≤ (b : ℚ) := by
    rw [le_div_iff₀ hpow] at h
    exact h
  have h2 : (pyRoundInt (q * 10 ^ n) : ℚ) ≤ (b : ℚ) := by
    exact_mod_cast pyRoundInt_le hb
  unfold roundTo
  gcongr

/-- Python `str.isalpha`: non-empty and every character alphabetic. -/
def isalpha (w : String) : Bool := w ≠ "" && w.toList.all Char.isAlpha

/-- The vowel set of `analyze_text_complexity` (`vowels = set("aeiouAEIOU")`). -/
def vowels : List Char := "aeiouAEIOU".toList

/-- Python `str.lower`, character by character.  (`String.toLower` itself is
defined by well-founded recursion over byte positions, which the kernel cannot
evaluate; this structural form is extensionally the same map.) -/
def strLower (s : String) : String := ⟨s.toList.map Char.toLower⟩

/-- The distinct elements of `l` in order of first occurrence: the key order of a
Python `dict` / `Counter` built by insertion. -/
def firstDedup {α : Type} [DecidableEq α] : List α → List α
  | [] => []
  | x :: xs => x :: (firstDedup xs).filter (fun y => y ≠ x)

/-- `Counter(l).most_common()`: each distinct element paired with its
multiplicity, in decreasing order of multiplicity; CPython's sort is stable, so
elements of equal multiplicity stay in first-occurrence order, which
`List.insertionSort` with this relation reproduces. -/
def mostCommon {α : Type} [DecidableEq α] (l : List α) : List (α × ℕ) :=
  List.insertionSort (fun a b => b.2 ≤ a.2)
    ((firstDedup l).map fun x => (x, l.count x))

/-- Python `enumerate(l, k)`. -/
def enumerateFrom {α : Type} (k : ℕ) : List α → List (ℕ × α)
  | [] => []
  | x :: xs => (k, x) :: enumerateFrom (k + 1) xs

/-- `nltk.ngrams(l, n)`: every length-`n` window of consecutive elements. -/
def ngramsList {α : Type} (n : ℕ) (l : List α) : List (List α) :=
  (List.range (l.length + 1 - n)).map fun i => (l.drop i).take n

/-- `get_word_rarity_label` of `utils.py`, verbatim. -/
def get_word_rarity_label (rank : ℕ) : String :=
  if rank ≤ 1000 then "Common"
  else if rank ≤ 5000 then "Intermediate"
  else "Advanced/Rare"

/-- `get_word_rankings` of `utils.py`, parameterized by the reference-corpus
word list (`brown.words()` in the source): keep alphabetic words lowercased,
order the distinct ones by decreasing frequency (`FreqDist.most_common`), and
enumerate ranks from 1.  The result is the rank dictionary as an association
list. -/
def get_word_rankings (corpusWords : List String) : List (String × ℕ) :=
  let lowered := (corpusWords.filter fun w => isalpha w).map strLower
  let common_words := (mostCommon lowered).map (·.1)
  (enumerateFrom 1 common_words).map fun p => (p.2, p.1)

/-- `rankings.get(word, 999999)` on an association-list rank table. -/
def lookupRank (rk : List (String × ℕ)) (w : String) : ℕ :=
  match rk.find? (fun p => p.1 == w) with
  | some p => p.2
  | none => 999999

/-- The external linguistic resources `utils.py` calls into.  These are
libraries (NLTK, textstat, matplotlib), not code of this repository, so the
embedding abstracts each as an arbitrary function; the analyzer's own logic is
proved for every such environment. -/
structure Env where
  /-- `nltk.word_tokenize`. -/
  wordTokenize : String → List String
  /-- `nltk.sent_tokenize`. -/
  sentTokenize : String → List String
  /-- `stopwords.words('english')`. -/
  stopWords : List String
  /-- `textstat.flesch_reading_ease`, before the display rounding. -/
  fleschReadingEase : String → ℚ
  /-- `SentimentIntensityAnalyzer().polarity_scores`: (neg, neu, pos, compound). -/
  polarityScores : String → ℚ × ℚ × ℚ × ℚ
  /-- `nltk.pos_tag(·, tagset='universal')`. -/
  posTagUniversal : List String → List (String × String)
  /-- The entity strings the `ne_chunk` block appends for the given
  original-case alphabetic words. -/
  neChunkEntities : List String → List String
  /-- `TreebankWordDetokenizer().detokenize` (space-join fallback included). -/
  detokenize : List String → String
  /-- The process-wide Brown-corpus rank table, as looked up by
  `rankings.get`: `none` for a word absent from the corpus. -/
  rankings : String → Option ℕ
  /-- Rendering the POS pie chart to a base64 payload. -/
  renderPie : List (String × String) → String
  /-- Rendering the word-length histogram to a base64 payload. -/
  renderHist : List ℕ → String
  /-- Rendering the rarity bar chart to a base64 payload. -/
  renderBar : List ℚ → String

/-- `rankings.get(word, 999999)` for the abstracted process-wide table. -/
def lookupOrRare (rankings : String → Option ℕ) (w : String) : ℕ :=
  (rankings w).getD 999999

/-- One entry of `highlighted_sentences`. -/
structure HighlightedSentence where
  text : String
  complexity_score : ℚ
  opacity : ℚ
deriving DecidableEq

/-- The `rarity_stats` dict: percentage per bucket. -/
structure RarityStats where
  common : ℚ
  intermediate : ℚ
  advancedRare : ℚ
deriving DecidableEq

/-- The report dict `analyze_text_complexity` returns for non-empty text,
flattened across its four groups (`general`, `reading`, `lexical`,
`advanced`) with the source's key names. -/
structure Report where
  word_count : ℕ
  sentence_count : ℕ
  avg_consonants : ℚ
  sentiment : ℚ × ℚ × ℚ × ℚ
  flesch_score : ℚ
  flesch_progress : ℚ
  avg_jaccard : ℚ
  highlighted_sentences : List HighlightedSentence
  diversity : ℚ
  rare_ratio : ℚ
  content_ratio : ℚ
  pos_graph : Option String
  len_graph : Option String
  bigrams : List String
  trigrams : List String
  entities : List String
  rarity_stats : RarityStats
  freq_graph : Option String
deriving DecidableEq

/-- `analyze_text_complexity` returns either the empty dict (empty input) or a
full report. -/
inductive AnalysisResult where
  | empty : AnalysisResult
  | report : Report → AnalysisResult
deriving DecidableEq

/-- `alpha_words = [w.lower() for w in words if w.isalpha()]`. -/
def alphaWords (env : Env) (text : String) : List String :=
  ((env.wordTokenize text).filter fun w => isalpha w).map strLower

/-- `calculate_jaccard` of `utils.py`: Jaccard similarity of the token sets of
the two lowercased sentences (Python `set` becomes `Finset`). -/
def calculate_jaccard (wt : String → List String) (sent1 sent2 : String) : ℚ :=
  let words1 := (wt (strLower sent1)).toFinset
  let words2 := (wt (strLower sent2)).toFinset
  if words1 = ∅ ∨ words2 = ∅ then 0
  else ((words1 ∩ words2).card : ℚ) / ((words1 ∪ words2).card : ℚ)

/-- `sum(1 for char in text if char.isalpha() and char not in vowels)`. -/
def consonantCount (text : String) : ℕ :=
  (text.toList.filter fun c => c.isAlpha && !vowels.contains c).length

/-- `avg_consonants`: consonant count over alphabetic-token count, rounded to 2
decimals, `0.0` when there is no alphabetic token. -/
def avgConsonantsOf (env : Env) (text : String) : ℚ :=
  if alphaWords env text ≠ [] then
    roundTo 2 ((consonantCount text : ℚ) / ((alphaWords env text).length : ℚ))
  else 0

/-- The Jaccard-cohesion block: with more than one sentence, sum
`calculate_jaccard` over the adjacent pairs, divide by the number of pairs and
round to 3 decimals; otherwise `1.0`. -/
def avgJaccardOf (env : Env) (text : String) : ℚ :=
  if 1 < (env.sentTokenize text).length then
    roundTo 3
      ((((env.sentTokenize text).zip (env.sentTokenize text).tail).map fun p =>
          calculate_jaccard env.wordTokenize p.1 p.2).sum /
        (((env.sentTokenize text).length - 1 : ℕ) : ℚ))
  else 1

/-- The top-5 frequent non-stopword alphabetic tokens with count above 1
(`top_words_set`), as a list. -/
def topWordsOf (env : Env) (text : String) : List String :=
  if alphaWords env text ≠ [] then
    (((mostCommon ((alphaWords env text).filter fun w =>
        !env.stopWords.contains w)).take 5).filter fun p =>
          decide (1 < p.2)).map (·.1)
  else []

/-- `sent_words_alpha` length for one sentence. -/
def sentAlphaLen (env : Env) (sent : String) : ℕ :=
  (((env.wordTokenize sent).filter fun w => isalpha w).map strLower).length

/-- `complex_count`: alphabetic tokens of the sentence longer than 6 characters. -/
def sentComplexCount (env : Env) (sent : String) : ℕ :=
  ((((env.wordTokenize sent).filter fun w => isalpha w).map strLower).filter
    fun w => 6 < w.length).length

/-- `len_score = min(sent_len / 30, 0.6)`. -/
def sentLenScore (env : Env) (sent : String) : ℚ :=
  min ((sentAlphaLen env sent : ℚ) / 30) 0.6

/-- `comp_score = min(complex_count / 8, 0.4)`. -/
def sentCompScore (env : Env) (sent : String) : ℚ :=
  min ((sentComplexCount env sent : ℚ) / 8) 0.4

/-- `total_score = len_score + comp_score`. -/
def sentTotalScore (env : Env) (sent : String) : ℚ :=
  sentLenScore env sent + sentCompScore env sent

/-- The opacity value of one sentence: `min(total_score, 0.6)`, overwritten to
`0` when `sent_len < 8 and complex_count < 2`. -/
def sentOpacity (env : Env) (sent : String) : ℚ :=
  if sentAlphaLen env sent < 8 ∧ sentComplexCount env sent < 2 then 0
  else min (sentTotalScore env sent) 0.6

/-- One entry of `highlighted_sentences`: frequent words wrapped in an emphasis
marker (the source's marker carries class and title attributes, abbreviated to
the bare tag here; no claim inspects the markup text), the 0-10 display score
and the 2-decimal opacity. -/
def highlightSentence (env : Env) (topWords : List String) (sent : String) :
    HighlightedSentence :=
  { text := env.detokenize ((env.wordTokenize sent).map fun t =>
      if topWords.contains (strLower t) then "<strong>" ++ t ++ "</strong>" else t)
    complexity_score := roundTo 1 (sentTotalScore env sent * 10)
    opacity := roundTo 2 (sentOpacity env sent) }

/-- The full `highlighted_sentences` list, one entry per sentence in order. -/
def highlightedOf (env : Env) (text : String) : List HighlightedSentence :=
  (env.sentTokenize text).map (highlightSentence env (topWordsOf env text))

/-- `lexical_diversity`: distinct over total alphabetic tokens, 2 decimals. -/
def diversityOf (env : Env) (text : String) : ℚ :=
  if alphaWords env text ≠ [] then
    roundTo 2 (((firstDedup (alphaWords env text)).length : ℚ) /
      ((alphaWords env text).length : ℚ))
  else 0

/-- `rare_word_ratio`: non-stopword over total alphabetic tokens, 2 decimals. -/
def rareRatioOf (env : Env) (text : String) : ℚ :=
  if alphaWords env text ≠ [] then
    roundTo 2 ((((alphaWords env text).filter fun w =>
      !env.stopWords.contains w).length : ℚ) / ((alphaWords env text).length : ℚ))
  else 0

/-- `content_tags = {"NOUN", "VERB", "ADJ", "ADV"}`. -/
def contentTags : List String := ["NOUN", "VERB", "ADJ", "ADV"]

/-- `pos_tags = nltk.pos_tag(alpha_words, tagset='universal')`. -/
def posTagsOf (env : Env) (text : String) : List (String × String) :=
  env.posTagUniversal (alphaWords env text)

/-- `content_ratio`: content-tagged over total alphabetic tokens, 2 decimals,
`0.0` when there is no alphabetic token (the POS block is skipped). -/
def contentRatioOf (env : Env) (text : String) : ℚ :=
  if alphaWords env text ≠ [] then
    roundTo 2 ((((posTagsOf env text).filter fun p =>
      contentTags.contains p.2).length : ℚ) / ((alphaWords env text).length : ℚ))
  else 0

/-- `pos_graph`: rendered only when there is an alphabetic token. -/
def posGraphOf (env : Env) (text : String) : Option String :=
  if alphaWords env text ≠ [] then some (env.renderPie (posTagsOf env text))
  else none

/-- `len_graph`: rendered only when the word dataframe is non-empty. -/
def lenGraphOf (env : Env) (text : String) : Option String :=
  if alphaWords env text ≠ [] then
    some (env.renderHist ((alphaWords env text).map String.length))
  else none

/-- The n-gram block before formatting: with more than 2 alphabetic tokens,
`most_common(5)` filtered to counts above 1; otherwise empty. -/
def repeatingNgrams (n : ℕ) (alpha : List String) : List (List String × ℕ) :=
  if 2 < alpha.length then
    ((mostCommon (ngramsList n alpha)).take 5).filter fun p => decide (1 < p.2)
  else []

/-- `f"{bg[0]} {bg[1]} ({count})"` and its trigram analogue. -/
def formatNgram (p : List String × ℕ) : String :=
  String.intercalate " " p.1 ++ " (" ++ toString p.2 ++ ")"

/-- `sorted(list(set(entities)))`; the entity strings themselves come from the
best-effort `ne_chunk` block, which runs only when there is an alphabetic
token. -/
def entitiesOf (env : Env) (text : String) : List String :=
  List.insertionSort (fun a b => a ≤ b)
    (firstDedup (if alphaWords env text ≠ [] then
        env.neChunkEntities ((env.wordTokenize text).filter fun w => isalpha w)
      else []))

/-- One bucket count of `word_rarity_dist`: how many alphabetic tokens get the
given label from their (sentinel-defaulted) rank. -/
def bucketCountOf (env : Env) (label : String) (text : String) : ℕ :=
  ((alphaWords env text).filter fun w =>
    get_word_rarity_label (lookupOrRare env.rankings w) == label).length

/-- `total_alpha = len(alpha_words) if alpha_words else 1`. -/
def totalAlphaOf (env : Env) (text : String) : ℕ :=
  if alphaWords env text ≠ [] then (alphaWords env text).length else 1

/-- One rarity percentage: `round((v / total_alpha) * 100, 1)`. -/
def rarityPercent (v total_alpha : ℕ) : ℚ :=
  roundTo 1 (((v : ℚ) / (total_alpha : ℚ)) * 100)

/-- The `rarity_stats` dict of percentages. -/
def rarityStatsOf (env : Env) (text : String) : RarityStats :=
  { common := rarityPercent (bucketCountOf env "Common" text) (totalAlphaOf env text)
    intermediate :=
      rarityPercent (bucketCountOf env "Intermediate" text) (totalAlphaOf env text)
    advancedRare :=
      rarityPercent (bucketCountOf env "Advanced/Rare" text) (totalAlphaOf env text) }

/-- `freq_graph`: rendered only when there is an alphabetic token. -/
def freqGraphOf (env : Env) (text : String) : Option String :=
  if alphaWords env text ≠ [] then
    some (env.renderBar [(rarityStatsOf env text).common,
      (rarityStatsOf env text).intermediate, (rarityStatsOf env text).advancedRare])
  else none

/-- The report `analyze_text_complexity` assembles for non-empty text. -/
def analyzeReport (env : Env) (text : String) : Report :=
  { word_count := (env.wordTokenize text).length
    sentence_count := (env.sentTokenize text).length
    avg_consonants := avgConsonantsOf env text
    sentiment := env.polarityScores text
    flesch_score := roundTo 1 (env.fleschReadingEase text)
    flesch_progress := max 0 (min 100 (roundTo 1 (env.fleschReadingEase text)))
    avg_jaccard := avgJaccardOf env text
    highlighted_sentences := highlightedOf env text
    diversity := diversityOf env text
    rare_ratio := rareRatioOf env text
    content_ratio := contentRatioOf env text
    pos_graph := posGraphOf env text
    len_graph := lenGraphOf env text
    bigrams := (repeatingNgrams 2 (alphaWords env text)).map formatNgram
    trigrams := (repeatingNgrams 3 (alphaWords env text)).map formatNgram
    entities := entitiesOf env text
    rarity_stats := rarityStatsOf env text
    freq_graph := freqGraphOf env text }

/-- `analyze_text_complexity`: `if not text: return {}`, else the full report.
This models the happy path on which every required linguistic resource is
available (the resource-failure behaviour is modelled by `analyzeE` below). -/
def analyze_text_complexity (env : Env) (text : String) : AnalysisResult :=
  if text = "" then .empty else .report (analyzeReport env text)

/-- Availability of the resources the claim about resource failure singles out:
the perceptron POS tagger used by `nltk.pos_tag` at the content-ratio block,
and the NER pipeline (its own `pos_tag` plus `ne_chunk`) inside the
`try/except` of the entities block. -/
structure Resources where
  posTagger : Bool
  nerChunker : Bool

/-- The report as produced under the given resources: the NER block's
`try/except Exception: pass` turns any failure there (a missing tagger or
chunker) into an empty entity list instead of an error. -/
def reportWithResources (env : Env) (res : Resources) (text : String) : Report :=
  { analyzeReport env text with
    entities :=
      if res.posTagger && res.nerChunker then (analyzeReport env text).entities
      else [] }

/-- `analyze_text_complexity` with resource failures made explicit.  The call
`nltk.pos_tag(alpha_words, tagset='universal')` in the POS block (line 230 of
`utils.py`) is NOT inside any `try/except`: when the tagger resource is
missing and there is at least one alphabetic token, the `LookupError` it
raises propagates out of the whole function.  The NER block (lines 286-293) is
guarded, so its failures only empty the entity list. -/
def analyzeE (env : Env) (res : Resources) (text : String) :
    Except String AnalysisResult :=
  if text = "" then .ok .empty
  else if alphaWords env text ≠ [] ∧ res.posTagger = false then
    .error "LookupError: averaged_perceptron_tagger"
  else .ok (.report (reportWithResources env res text))

/-- One chart-rendering call as the source writes it (the POS pie at lines
237-245, the length histogram at lines 252-262, the rarity bar at lines
316-325 all share this shape): `plt.figure()` opens a figure, the plotting and
`plt.savefig` run, and `plt.close()` runs only after a successful save — there
is no `try/finally`.  The state is the number of open figures; `none` as first
component means the exception propagated to the caller. -/
def chartCall (openFigures : ℕ) (savefigRaises : Bool) (payload : String) :
    Option String × ℕ :=
  let opened := openFigures + 1
  if savefigRaises then (none, opened)
  else (some payload, opened - 1)

/-- Modelled from the spec sentence for `avg_jaccard` alone: Jaccard
similarity of the lowercase word-token sets of two sentences, `0.0` if either
sentence has no word tokens. -/
def jaccardSpec (wt : String → List String) (sent1 sent2 : String) : ℚ :=
  let words1 := (wt (strLower sent1)).toFinset
  let words2 := (wt (strLower sent2)).toFinset
  if words1 = ∅ ∨ words2 = ∅ then 0
  else ((words1 ∩ words2).card : ℚ) / ((words1 ∪ words2).card : ℚ)

/-- Modelled from the spec sentence for `avg_jaccard` alone: with fewer than 2
sentences the cohesion is `1.0` by convention; otherwise the average of the
adjacent-pair similarities, rounded to 3 decimals. -/
def avgJaccardSpec (env : Env) (text : String) : ℚ :=
  if (env.sentTokenize text).length < 2 then 1
  else
    roundTo 3
      ((((env.sentTokenize text).zip (env.sentTokenize text).tail).map fun p =>
          jaccardSpec env.wordTokenize p.1 p.2).sum /
        (((env.sentTokenize text).length - 1 : ℕ) : ℚ))

/-- A character-level splitter for the witness environments (`String.splitOn`
is defined by well-founded recursion, which the kernel cannot evaluate). -/
def charSplitAux (sep : Char) : List Char → List Char → List (List Char)
  | [], acc => [acc.reverse]
  | c :: cs, acc =>
    if c = sep then acc.reverse :: charSplitAux sep cs []
    else charSplitAux sep cs (c :: acc)

/-- Split a string at every occurrence of `sep`. -/
def charSplit (sep : Char) (s : String) : List String :=
  (charSplitAux sep s.toList []).map fun cs => (⟨cs⟩ : String)

/-- Whitespace word-splitting for the witness environments. -/
def spaceSplit (s : String) : List String :=
  (charSplit ' ' s).filter fun w => w ≠ ""

/-- A concrete environment used by the witnesses: whitespace word-splitting,
the whole text as the single sentence, and trivial resource functions. -/
def env0 : Env :=
  { wordTokenize := spaceSplit
    sentTokenize := fun s => [s]
    stopWords := ["the"]
    fleschReadingEase := fun _ => 50
    polarityScores := fun _ => (0, 0, 0, 0)
    posTagUniversal := fun ws => ws.map fun w => (w, "NOUN")
    neChunkEntities := fun _ => []
    detokenize := fun ts => String.intercalate " " ts
    rankings := fun w => if w = "the" then some 1 else none
    renderPie := fun _ => "pie"
    renderHist := fun _ => "hist"
    renderBar := fun _ => "bar" }

/-- A concrete environment whose sentence splitter cuts at `;`, giving
witnesses with several sentences. -/
def env1 : Env :=
  { env0 with sentTokenize := charSplit ';' }

instance instIsTotalCountDesc {α : Type} :
    IsTotal (α × ℕ) (fun a b => b.2 ≤ a.2) :=
  ⟨fun a b => le_total b.2 a.2⟩

instance instIsTransCountDesc {α : Type} :
    IsTrans (α × ℕ) (fun a b => b.2 ≤ a.2) :=
  ⟨fun _ _ _ h1 h2 => le_trans h2 h1⟩

theorem mem_firstDedup {α : Type} [DecidableEq α] {a : α} {l : List α} :
    a ∈ firstDedup l ↔ a ∈ l := by
  induction l with
  | nil => simp [firstDedup]
  | cons x xs ih =>
    simp only [firstDedup, List.mem_cons, List.mem_filter, decide_eq_true_eq]
    by_cases hax : a = x
    · simp [hax]
    · simp [hax, ih]

theorem nodup_firstDedup {α : Type} [DecidableEq α] (l : List α) :
    (firstDedup l).Nodup := by
  induction l with
  | nil => simp [firstDedup]
  | cons x xs ih =>
    rw [firstDedup, List.nodup_cons]
    refine ⟨?_, List.Nodup.filter _ ih⟩
    intro hmem
    rw [List.mem_filter] at hmem
    simp at hmem

theorem mem_mostCommon {α : Type} [DecidableEq α] {p : α × ℕ} {l : List α}
    (h : p ∈ mostCommon l) : p.1 ∈ l ∧ p.2 = l.count p.1 := by
  unfold mostCommon at h
  rw [List.mem_insertionSort] at h
  obtain ⟨x, hx, rfl⟩ := List.mem_map.mp h
  exact ⟨mem_firstDedup.mp hx, rfl⟩

theorem pairwise_mostCommon {α : Type} [DecidableEq α] (l : List α) :
    (mostCommon l).Pairwise (fun a b => b.2 ≤ a.2) :=
  List.sorted_insertionSort _ _

theorem map_fst_mostCommon_perm {α : Type} [DecidableEq α] (l : List α) :
    ((mostCommon l).map Prod.fst).Perm (firstDedup l) := by
  unfold mostCommon
  have h := (List.perm_insertionSort (fun a b : α × ℕ => b.2 ≤ a.2)
    ((firstDedup l).map fun x => (x, l.count x))).map Prod.fst
  simpa [List.map_map, Function.comp_def] using h

theorem map_fst_enumerateFrom {α : Type} (k : ℕ) (l : List α) :
    (enumerateFrom k l).map Prod.fst = List.range' k l.length := by
  induction l generalizing k with
  | nil => simp [enumerateFrom]
  | cons x xs ih => simp [enumerateFrom, List.range'_succ, ih]

theorem map_snd_enumerateFrom {α : Type} (k : ℕ) (l : List α) :
    (enumerateFrom k l).map Prod.snd = l := by
  induction l generalizing k with
  | nil => simp [enumerateFrom]
  | cons x xs ih => simp [enumerateFrom, ih]

theorem length_of_mem_ngramsList {α : Type} {n : ℕ} {l g : List α}
    (h : g ∈ ngramsList n l) : g.length = n := by
  unfold ngramsList at h
  obtain ⟨i, hi, rfl⟩ := List.mem_map.mp h
  rw [List.mem_range] at hi
  simp only [List.length_take, List.length_drop]
  omega

theorem length_filter_three {α : Type} (l : List α) (p q r : α → Bool)
    (h : ∀ x, ((if p x then 1 else 0) + (if q x then 1 else 0)
      + (if r x then 1 else 0) : ℕ) = 1) :
    (l.filter p).length + (l.filter q).length + (l.filter r).length
      = l.length := by
  induction l with
  | nil => simp
  | cons x xs ih =>
    have hx := h x
    simp only [List.filter_cons]
    by_cases hp : p x <;> by_cases hq : q x <;> by_cases hr : r x <;>
      simp only [hp, hq, hr, if_true, if_false, List.length_cons,
        Bool.false_eq_true, ite_false, ite_true] at hx ⊢ <;> omega

theorem rarity_label_cases (rank : ℕ) :
    ((if (get_word_rarity_label rank == "Common") then 1 else 0)
      + (if (get_word_rarity_label rank == "Intermediate") then 1 else 0)
      + (if (get_word_rarity_label rank == "Advanced/Rare") then 1 else 0)
        : ℕ) = 1 := by
  unfold get_word_rarity_label
  split
  · decide
  · split <;> decide

theorem bucketCount_partition (env : Env) (text : String) :
    bucketCountOf env "Common" text + bucketCountOf env "Intermediate" text
      + bucketCountOf env "Advanced/Rare" text = (alphaWords env text).length := by
  unfold bucketCountOf
  apply length_filter_three
  intro w
  exact rarity_label_cases (lookupOrRare env.rankings w)

theorem analyze_ne_empty (env : Env) {text : String} (h : text ≠ "") :
    analyze_text_complexity env text = .report (analyzeReport env text) := by
  unfold analyze_text_complexity
  rw [if_neg h]

theorem report_of_analyze {env : Env} {text : String} {rep : Report}
    (h : analyze_text_complexity env text = .report rep) :
    rep = analyzeReport env text := by
  unfold analyze_text_complexity at h
  split at h
  · cases h
  · cases h
    rfl

theorem sentTotalScore_nonneg (env : Env) (sent : String) :
    0 ≤ sentTotalScore env sent := by
  unfold sentTotalScore sentLenScore sentCompScore
  have h1 : (0:ℚ) ≤ min ((sentAlphaLen env sent : ℚ) / 30) 0.6 :=
    le_min (by positivity) (by norm_num)
  have h2 : (0:ℚ) ≤ min ((sentComplexCount env sent : ℚ) / 8) 0.4 :=
    le_min (by positivity) (by norm_num)
  linarith

theorem sentOpacity_nonneg (env : Env) (sent : String) :
    0 ≤ sentOpacity env sent := by
  unfold sentOpacity
  split
  · exact le_refl 0
  · exact le_min (sentTotalScore_nonneg env sent) (by norm_num)

theorem sentOpacity_le (env : Env) (sent : String) :
    sentOpacity env sent ≤ 0.6 := by
  unfold sentOpacity
  split
  · norm_num
  · exact min_le_right _ _

theorem roundTo_two_bounds {v : ℚ} (h0 : 0 ≤ v) (h6 : v ≤ 0.6) :
    0 ≤ roundTo 2 v ∧ roundTo 2 v ≤ 0.6 := by
  refine ⟨roundTo_nonneg 2 h0, ?_⟩
  have h := roundTo_le_of_le (q := v) (b := 60) 2 (by push_cast; norm_num; linarith)
  calc roundTo 2 v ≤ (60 : ℤ) / 10 ^ 2 := h
    _ = 0.6 := by norm_num

theorem repeatingNgrams_of_short {n : ℕ} {alpha : List String}
    (h : alpha.length < 3) : repeatingNgrams n alpha = [] := by
  unfold repeatingNgrams
  rw [if_neg (by omega)]

theorem repeatingNgrams_length_le (n : ℕ) (alpha : List String) :
    (repeatingNgrams n alpha).length ≤ 5 := by
  unfold repeatingNgrams
  split
  · calc (List.filter _ (List.take 5 (mostCommon (ngramsList n alpha)))).length
        ≤ (List.take 5 (mostCommon (ngramsList n alpha))).length :=
          (List.filter_sublist _).length_le
      _ ≤ 5 := by simp [List.length_take]
  · simp

theorem count_eq_length_filter_eq {α : Type} [DecidableEq α] (l : List α) (x : α) :
    @List.count α instBEqOfDecidableEq x l = (l.filter (fun g => g = x)).length := by
  rw [@List.count_eq_countP _ instBEqOfDecidableEq, List.countP_eq_length_filter]
  congr 1

theorem mem_repeatingNgrams {n : ℕ} {alpha : List String} {p : List String × ℕ}
    (h : p ∈ repeatingNgrams n alpha) :
    1 < p.2 ∧ p.2 = ((ngramsList n alpha).filter (fun g => g = p.1)).length
      ∧ p.1.length = n := by
  unfold repeatingNgrams at h
  split at h
  · rw [List.mem_filter] at h
    obtain ⟨hmem, hcnt⟩ := h
    have hmc := mem_mostCommon (List.Sublist.mem hmem (List.take_sublist 5 _))
    exact ⟨by simpa using hcnt,
      hmc.2.trans (count_eq_length_filter_eq _ _),
      length_of_mem_ngramsList hmc.1⟩
  · cases h

theorem pairwise_repeatingNgrams (n : ℕ) (alpha : List String) :
    (repeatingNgrams n alpha).Pairwise (fun a b => b.2 ≤ a.2) := by
  unfold repeatingNgrams
  split
  · exact List.Pairwise.sublist
      ((List.filter_sublist _).trans (List.take_sublist 5 _))
      (pairwise_mostCommon _)
  · exact List.Pairwise.nil

theorem rarity_exact_sum {c1 c2 c3 n : ℕ} (hn : n ≠ 0) (hsum : c1 + c2 + c3 = n) :
    (c1 : ℚ) / n * 100 + (c2 : ℚ) / n * 100 + (c3 : ℚ) / n * 100 = 100 := by
  have hnq : (n : ℚ) ≠ 0 := Nat.cast_ne_zero.mpr hn
  have hc : (c1 : ℚ) + c2 + c3 = (n : ℚ) := by exact_mod_cast hsum
  field_simp
  linarith

/-- C8: analyzing the empty string returns the empty result object before any
analyzer runs (`if not text: return {}`), not an error. -/
theorem empty_text_empty_report (env : Env) :
    analyze_text_complexity env "" = AnalysisResult.empty := rfl

/-- C5: the rarity bucket of a token is "Common" for rank at most 1000,
"Intermediate" for rank at most 5000, "Advanced/Rare" beyond; a word absent
from the reference corpus gets the sentinel rank 999999 and is therefore
always "Advanced/Rare".  `lookupOrRare` and `get_word_rarity_label` are
exactly the classification `analyze_text_complexity` applies to every
alphabetic lowercase token (via `bucketCountOf`). -/
theorem rarity_bucket_rule (rankings : String → Option ℕ) (w : String) :
    (lookupOrRare rankings w ≤ 1000 →
      get_word_rarity_label (lookupOrRare rankings w) = "Common")
    ∧ (1000 < lookupOrRare rankings w → lookupOrRare rankings w ≤ 5000 →
      get_word_rarity_label (lookupOrRare rankings w) = "Intermediate")
    ∧ (5000 < lookupOrRare rankings w →
      get_word_rarity_label (lookupOrRare rankings w) = "Advanced/Rare")
    ∧ (rankings w = none → lookupOrRare rankings w = 999999
        ∧ get_word_rarity_label (lookupOrRare rankings w) = "Advanced/Rare") := by
  refine ⟨?_, ?_, ?_, ?_⟩
  · intro h
    unfold get_word_rarity_label
    rw [if_pos h]
  · intro h1 h2
    unfold get_word_rarity_label
    rw [if_neg (by omega), if_pos h2]
  · intro h
    unfold get_word_rarity_label
    rw [if_neg (by omega), if_neg (by omega)]
  · intro h
    have hv : lookupOrRare rankings w = 999999 := by
      unfold lookupOrRare
      rw [h]
      rfl
    refine ⟨hv, ?_⟩
    rw [hv]
    unfold get_word_rarity_label
    rw [if_neg (by omega), if_neg (by omega)]

/-- C4 counterexample: one chart call whose `plt.savefig` raises leaves the
figure open (the open-figure count goes from 0 to 1 and the exception
propagates), so the drawing context is NOT released on every exit path. -/
theorem chart_figure_leaked_on_savefig_error :
    (chartCall 0 true "png").1 = none ∧ (chartCall 0 true "png").2 = 1 :=
  ⟨rfl, rfl⟩

/-- C4 amended: on the non-exceptional path every chart-rendering call closes
the figure it opened before returning (the open-figure count is restored and
the payload delivered); when saving raises, the close is skipped and exactly
the one figure opened by this call stays behind. -/
theorem chart_figure_released_on_success (openFigures : ℕ) (payload : String) :
    (chartCall openFigures false payload).1 = some payload
    ∧ (chartCall openFigures false payload).2 = openFigures
    ∧ (chartCall openFigures true payload).2 = openFigures + 1 := by
  refine ⟨rfl, ?_, rfl⟩
  show openFigures + 1 - 1 = openFigures
  omega

/-- C1 counterexample: with the POS-tagger resource missing and at least one
alphabetic token, `analyze_text_complexity` raises (the `LookupError` from the
unguarded `nltk.pos_tag` call at line 230 propagates) instead of returning a
report with that stage skipped. -/
theorem pos_tagger_missing_aborts_report :
    analyzeE env0 ⟨false, true⟩ "hello world"
      = Except.error "LookupError: averaged_perceptron_tagger" := rfl

/-- C1 amended: the NER stage alone is guarded — whenever the POS-tagger
resource is available, a result object is always returned, and a failing NER
stage merely contributes an empty entity list; but a missing POS tagger is
fatal to the report (see the counterexample), contrary to the claim. -/
theorem report_returned_when_pos_tagger_available (env : Env) (res : Resources)
    (text : String) (hpos : res.posTagger = true) :
    (∃ r, analyzeE env res text = Except.ok r)
    ∧ (res.nerChunker = false →
        (reportWithResources env res text).entities = []) := by
  constructor
  · unfold analyzeE
    split
    · exact ⟨.empty, rfl⟩
    · rw [if_neg (by simp [hpos])]
      exact ⟨_, rfl⟩
  · intro hner
    simp [reportWithResources, hpos, hner]

/-- Witness for C1's amended theorem: with the POS tagger present and the NER
chunker failing, the analysis of "hello world" still returns a result object
whose entity list is empty. -/
theorem report_returned_when_pos_tagger_available_witness :
    (∃ r, analyzeE env0 ⟨true, false⟩ "hello world" = Except.ok r)
    ∧ ((⟨true, false⟩ : Resources).nerChunker = false →
        (reportWithResources env0 ⟨true, false⟩ "hello world").entities = []) :=
  report_returned_when_pos_tagger_available env0 ⟨true, false⟩ "hello world" rfl

/-- C2: the reported `avg_jaccard` is 1.0 for fewer than 2 sentences and
otherwise the 3-decimal rounding of the average, over all adjacent sentence
pairs, of the Jaccard similarity of the pairs' lowercase word-token sets,
where a pair with an empty token set contributes 0.0 (`avgJaccardSpec` states
that formula in the spec's wording). -/
theorem avg_jaccard_matches_spec (env : Env) (text : String) (rep : Report)
    (h : analyze_text_complexity env text = .report rep) :
    rep.avg_jaccard = avgJaccardSpec env text := by
  obtain rfl := report_of_analyze h
  show avgJaccardOf env text = avgJaccardSpec env text
  unfold avgJaccardOf avgJaccardSpec
  by_cases hlen : 1 < (env.sentTokenize text).length
  · rw [if_pos hlen, if_neg (by omega)]
    rfl
  · rw [if_neg hlen, if_pos (by omega)]

/-- Witness for C2 at a two-sentence input. -/
theorem avg_jaccard_matches_spec_witness :
    (analyzeReport env1 "a b; b c").avg_jaccard = avgJaccardSpec env1 "a b; b c" :=
  avg_jaccard_matches_spec env1 "a b; b c" (analyzeReport env1 "a b; b c")
    (analyze_ne_empty env1 (by decide))

/-- C3: every highlighted sentence's stored opacity is the 2-decimal rounding
of the sentence's opacity value; it lies in [0, 0.6]; it is forced to 0
whenever the sentence has fewer than 8 alphabetic tokens and fewer than 2
alphabetic tokens longer than 6 characters; and otherwise the opacity value
equals `min(len_score + comp_score, 0.6)` with the claimed score formulas
(`sentLenScore`/`sentCompScore` are those formulas verbatim). -/
theorem highlight_opacity_bounds (env : Env) (text : String) (rep : Report)
    (h : analyze_text_complexity env text = .report rep)
    (hs : HighlightedSentence) (hmem : hs ∈ rep.highlighted_sentences) :
    ∃ sent ∈ env.sentTokenize text,
      hs.opacity = roundTo 2 (sentOpacity env sent)
      ∧ 0 ≤ hs.opacity ∧ hs.opacity ≤ 0.6
      ∧ (sentAlphaLen env sent < 8 ∧ sentComplexCount env sent < 2 →
          hs.opacity = 0)
      ∧ (¬(sentAlphaLen env sent < 8 ∧ sentComplexCount env sent < 2) →
          sentOpacity env sent
            = min (sentLenScore env sent + sentCompScore env sent) 0.6) := by
  obtain rfl := report_of_analyze h
  have hmem2 : hs ∈ highlightedOf env text := hmem
  unfold highlightedOf at hmem2
  obtain ⟨sent, hsent, rfl⟩ := List.mem_map.mp hmem2
  have hb := roundTo_two_bounds (sentOpacity_nonneg env sent) (sentOpacity_le env sent)
  refine ⟨sent, hsent, rfl, hb.1, hb.2, ?_, ?_⟩
  · intro hc
    show roundTo 2 (sentOpacity env sent) = 0
    rw [show sentOpacity env sent = 0 from by unfold sentOpacity; rw [if_pos hc]]
    exact roundTo_zero 2
  · intro hc
    unfold sentOpacity
    rw [if_neg hc]
    rfl

/-- Witness for C3 at the one-sentence text "hello" (1 alphabetic token, 0
complex tokens, so the short-sentence zeroing branch is exercised). -/
theorem highlight_opacity_bounds_witness :
    ∃ sent ∈ env0.sentTokenize "hello",
      (highlightSentence env0 (topWordsOf env0 "hello") "hello").opacity
        = roundTo 2 (sentOpacity env0 sent)
      ∧ 0 ≤ (highlightSentence env0 (topWordsOf env0 "hello") "hello").opacity
      ∧ (highlightSentence env0 (topWordsOf env0 "hello") "hello").opacity ≤ 0.6
      ∧ (sentAlphaLen env0 sent < 8 ∧ sentComplexCount env0 sent < 2 →
          (highlightSentence env0 (topWordsOf env0 "hello") "hello").opacity = 0)
      ∧ (¬(sentAlphaLen env0 sent < 8 ∧ sentComplexCount env0 sent < 2) →
          sentOpacity env0 sent
            = min (sentLenScore env0 sent + sentCompScore env0 sent) 0.6) :=
  highlight_opacity_bounds env0 "hello" (analyzeReport env0 "hello")
    (analyze_ne_empty env0 (by decide))
    (highlightSentence env0 (topWordsOf env0 "hello") "hello")
    (List.mem_cons_self _ _)

/-- C6: with at least one alphabetic token, the three rarity percentages (each
the 1-decimal rounding of bucket count over total alphabetic tokens times
100) sum to 100 up to the rounding tolerance of 3 times 0.05. -/
theorem rarity_percentages_sum (env : Env) (text : String) (rep : Report)
    (h : analyze_text_complexity env text = .report rep)
    (halpha : alphaWords env text ≠ []) :
    |rep.rarity_stats.common + rep.rarity_stats.intermediate
      + rep.rarity_stats.advancedRare - 100| ≤ 3/20 := by
  obtain rfl := report_of_analyze h
  show |(rarityStatsOf env text).common + (rarityStatsOf env text).intermediate
      + (rarityStatsOf env text).advancedRare - 100| ≤ 3/20
  have hn : (alphaWords env text).length ≠ 0 := by
    simpa using halpha
  have htot : totalAlphaOf env text = (alphaWords env text).length := by
    unfold totalAlphaOf
    rw [if_pos halpha]
  have hsum : bucketCountOf env "Common" text + bucketCountOf env "Intermediate" text
      + bucketCountOf env "Advanced/Rare" text = (alphaWords env text).length :=
    bucketCount_partition env text
  have hexact := rarity_exact_sum hn hsum
  have e1 : (rarityStatsOf env text).common
      = roundTo 1 ((bucketCountOf env "Common" text : ℚ)
          / ((alphaWords env text).length : ℚ) * 100) := by
    show rarityPercent _ (totalAlphaOf env text) = _
    rw [htot]
    rfl
  have e2 : (rarityStatsOf env text).intermediate
      = roundTo 1 ((bucketCountOf env "Intermediate" text : ℚ)
          / ((alphaWords env text).length : ℚ) * 100) := by
    show rarityPercent _ (totalAlphaOf env text) = _
    rw [htot]
    rfl
  have e3 : (rarityStatsOf env text).advancedRare
      = roundTo 1 ((bucketCountOf env "Advanced/Rare" text : ℚ)
          / ((alphaWords env text).length : ℚ) * 100) := by
    show rarityPercent _ (totalAlphaOf env text) = _
    rw [htot]
    rfl
  rw [e1, e2, e3]
  have a1 := abs_roundTo_sub 1 ((bucketCountOf env "Common" text : ℚ)
    / ((alphaWords env text).length : ℚ) * 100)
  have a2 := abs_roundTo_sub 1 ((bucketCountOf env "Intermediate" text : ℚ)
    / ((alphaWords env text).length : ℚ) * 100)
  have a3 := abs_roundTo_sub 1 ((bucketCountOf env "Advanced/Rare" text : ℚ)
    / ((alphaWords env text).length : ℚ) * 100)
  norm_num at a1 a2 a3
  rw [abs_le] at a1 a2 a3 ⊢
  constructor <;> linarith

/-- Witness for C6 at "the the zz": two "Common" tokens and one out-of-corpus
"Advanced/Rare" token, percentages 66.7 + 0.0 + 33.3. -/
theorem rarity_percentages_sum_witness :
    |(analyzeReport env0 "the the zz").rarity_stats.common
      + (analyzeReport env0 "the the zz").rarity_stats.intermediate
      + (analyzeReport env0 "the the zz").rarity_stats.advancedRare - 100|
        ≤ 3/20 :=
  rarity_percentages_sum env0 "the the zz" (analyzeReport env0 "the the zz")
    (analyze_ne_empty env0 (by decide)) (by decide)

/-- C7: both n-gram lists are empty for fewer than 3 alphabetic tokens;
otherwise each list is the `formatNgram`-rendering of at most 5 pairs, every
pair a sequence occurring more than once with its true frequency, in
non-increasing frequency order. -/
theorem repeating_ngrams_properties (env : Env) (text : String) (rep : Report)
    (h : analyze_text_complexity env text = .report rep) :
    ((alphaWords env text).length < 3 → rep.bigrams = [] ∧ rep.trigrams = [])
    ∧ rep.bigrams = (repeatingNgrams 2 (alphaWords env text)).map formatNgram
    ∧ rep.trigrams = (repeatingNgrams 3 (alphaWords env text)).map formatNgram
    ∧ rep.bigrams.length ≤ 5 ∧ rep.trigrams.length ≤ 5
    ∧ (∀ p ∈ repeatingNgrams 2 (alphaWords env text),
        1 < p.2
        ∧ p.2 = ((ngramsList 2 (alphaWords env text)).filter
            (fun g => g = p.1)).length
        ∧ p.1.length = 2)
    ∧ (∀ p ∈ repeatingNgrams 3 (alphaWords env text),
        1 < p.2
        ∧ p.2 = ((ngramsList 3 (alphaWords env text)).filter
            (fun g => g = p.1)).length
        ∧ p.1.length = 3)
    ∧ (repeatingNgrams 2 (alphaWords env text)).Pairwise (fun a b => b.2 ≤ a.2)
    ∧ (repeatingNgrams 3 (alphaWords env text)).Pairwise (fun a b => b.2 ≤ a.2)
    := by
  obtain rfl := report_of_analyze h
  refine ⟨?_, rfl, rfl, ?_, ?_, ?_, ?_,
    pairwise_repeatingNgrams 2 _, pairwise_repeatingNgrams 3 _⟩
  · intro hlt
    show (repeatingNgrams 2 _).map formatNgram = []
      ∧ (repeatingNgrams 3 _).map formatNgram = []
    rw [repeatingNgrams_of_short hlt, repeatingNgrams_of_short hlt]
    exact ⟨rfl, rfl⟩
  · show ((repeatingNgrams 2 _).map formatNgram).length ≤ 5
    rw [List.length_map]
    exact repeatingNgrams_length_le 2 _
  · show ((repeatingNgrams 3 _).map formatNgram).length ≤ 5
    rw [List.length_map]
    exact repeatingNgrams_length_le 3 _
  · intro p hp
    exact mem_repeatingNgrams hp
  · intro p hp
    exact mem_repeatingNgrams hp

/-- Witness for C7 at "a b a b" (4 alphabetic tokens, one repeated bigram). -/
theorem repeating_ngrams_properties_witness :
    ((alphaWords env0 "a b a b").length < 3 →
      (analyzeReport env0 "a b a b").bigrams = []
      ∧ (analyzeReport env0 "a b a b").trigrams = [])
    ∧ (analyzeReport env0 "a b a b").bigrams
        = (repeatingNgrams 2 (alphaWords env0 "a b a b")).map formatNgram
    ∧ (analyzeReport env0 "a b a b").trigrams
        = (repeatingNgrams 3 (alphaWords env0 "a b a b")).map formatNgram
    ∧ (analyzeReport env0 "a b a b").bigrams.length ≤ 5
    ∧ (analyzeReport env0 "a b a b").trigrams.length ≤ 5
    ∧ (∀ p ∈ repeatingNgrams 2 (alphaWords env0 "a b a b"),
        1 < p.2
        ∧ p.2 = ((ngramsList 2 (alphaWords env0 "a b a b")).filter
            (fun g => g = p.1)).length
        ∧ p.1.length = 2)
    ∧ (∀ p ∈ repeatingNgrams 3 (alphaWords env0 "a b a b"),
        1 < p.2
        ∧ p.2 = ((ngramsList 3 (alphaWords env0 "a b a b")).filter
            (fun g => g = p.1)).length
        ∧ p.1.length = 3)
    ∧ (repeatingNgrams 2 (alphaWords env0 "a b a b")).Pairwise
        (fun a b => b.2 ≤ a.2)
    ∧ (repeatingNgrams 3 (alphaWords env0 "a b a b")).Pairwise
        (fun a b => b.2 ≤ a.2) :=
  repeating_ngrams_properties env0 "a b a b" (analyzeReport env0 "a b a b")
    (analyze_ne_empty env0 (by decide))

/-- C9: the rank values of the table `get_word_rankings` builds are exactly
1..N in order (dense, strictly increasing from 1, no duplicates), where N is
the number of distinct lowercased alphabetic corpus words (the keys are
exactly those words, without repetition); looking up a word that is not a key
yields the sentinel rank 999999. -/
theorem word_rankings_dense_from_one (corpusWords : List String) :
    ((get_word_rankings corpusWords).map Prod.snd
        = List.range' 1 (get_word_rankings corpusWords).length)
    ∧ ((get_word_rankings corpusWords).map Prod.fst).Nodup
    ∧ (∀ w, w ∈ (get_word_rankings corpusWords).map Prod.fst ↔
        w ∈ (corpusWords.filter fun x => isalpha x).map strLower)
    ∧ (get_word_rankings corpusWords).length
        = (firstDedup ((corpusWords.filter fun x => isalpha x).map strLower)).length
    ∧ (∀ w, w ∉ (get_word_rankings corpusWords).map Prod.fst →
        lookupRank (get_word_rankings corpusWords) w = 999999) := by
  have hGR : get_word_rankings corpusWords
      = (enumerateFrom 1 ((mostCommon ((corpusWords.filter fun x =>
          isalpha x).map strLower)).map (·.1))).map (fun p => (p.2, p.1)) := rfl
  have hfst : (get_word_rankings corpusWords).map Prod.fst
      = (mostCommon ((corpusWords.filter fun x => isalpha x).map strLower)).map
          (·.1) := by
    rw [hGR, List.map_map]
    exact map_snd_enumerateFrom 1 _
  have hperm := map_fst_mostCommon_perm
    ((corpusWords.filter fun x => isalpha x).map strLower)
  have hlen : (get_word_rankings corpusWords).length
      = ((mostCommon ((corpusWords.filter fun x => isalpha x).map strLower)).map
          (·.1)).length := by
    rw [hGR, List.length_map]
    have := congrArg List.length (map_snd_enumerateFrom 1
      ((mostCommon ((corpusWords.filter fun x => isalpha x).map strLower)).map
        (·.1)))
    rw [List.length_map] at this
    exact this
  refine ⟨?_, ?_, ?_, ?_, ?_⟩
  · rw [hlen, hGR, List.map_map]
    exact map_fst_enumerateFrom 1 _
  · rw [hfst]
    exact hperm.nodup_iff.mpr
      (nodup_firstDedup ((corpusWords.filter fun x => isalpha x).map strLower))
  · intro w
    rw [hfst]
    exact hperm.mem_iff.trans mem_firstDedup
  · rw [hlen]
    exact hperm.length_eq
  · intro w hw
    have hnone : (get_word_rankings corpusWords).find? (fun p => p.1 == w)
        = none := by
      rw [List.find?_eq_none]
      intro x hx hbeq
      rw [beq_iff_eq] at hbeq
      exact hw (List.mem_map.mpr ⟨x, hx, hbeq⟩)
    unfold lookupRank
    rw [hnone]

/-- C10: non-empty text with zero alphabetic tokens still yields the full
report (not the empty dict): the counts come from the tokenizer, cohesion is
1.0 for fewer than 2 sentences, every ratio field is 0.0, all three graph
fields are `none` and all three rarity percentages are 0.0 (summing to 0, not
100). -/
theorem no_alpha_tokens_full_report (env : Env) (text : String)
    (htext : text ≠ "") (halpha : alphaWords env text = []) :
    analyze_text_complexity env text = .report (analyzeReport env text)
    ∧ (analyzeReport env text).word_count = (env.wordTokenize text).length
    ∧ (analyzeReport env text).sentence_count = (env.sentTokenize text).length
    ∧ ((env.sentTokenize text).length < 2 →
        (analyzeReport env text).avg_jaccard = 1)
    ∧ (analyzeReport env text).avg_consonants = 0
    ∧ (analyzeReport env text).diversity = 0
    ∧ (analyzeReport env text).rare_ratio = 0
    ∧ (analyzeReport env text).content_ratio = 0
    ∧ (analyzeReport env text).pos_graph = none
    ∧ (analyzeReport env text).len_graph = none
    ∧ (analyzeReport env text).freq_graph = none
    ∧ (analyzeReport env text).rarity_stats = ⟨0, 0, 0⟩ := by
  have hnn : ¬ (alphaWords env text ≠ []) := by simp [halpha]
  refine ⟨analyze_ne_empty env htext, rfl, rfl, ?_, ?_, ?_, ?_, ?_, ?_, ?_, ?_, ?_⟩
  · intro hlt
    show avgJaccardOf env text = 1
    unfold avgJaccardOf
    rw [if_neg (by omega)]
  · show avgConsonantsOf env text = 0
    unfold avgConsonantsOf
    rw [if_neg hnn]
  · show diversityOf env text = 0
    unfold diversityOf
    rw [if_neg hnn]
  · show rareRatioOf env text = 0
    unfold rareRatioOf
    rw [if_neg hnn]
  · show contentRatioOf env text = 0
    unfold contentRatioOf
    rw [if_neg hnn]
  · show posGraphOf env text = none
    unfold posGraphOf
    rw [if_neg hnn]
  · show lenGraphOf env text = none
    unfold lenGraphOf
    rw [if_neg hnn]
  · show freqGraphOf env text = none
    unfold freqGraphOf
    rw [if_neg hnn]
  · show rarityStatsOf env text = ⟨0, 0, 0⟩
    have hb : ∀ label, bucketCountOf env label text = 0 := by
      intro label
      unfold bucketCountOf
      rw [halpha]
      rfl
    have hz : ∀ label,
        rarityPercent (bucketCountOf env label text) (totalAlphaOf env text)
          = 0 := by
      intro label
      rw [hb]
      unfold rarityPercent
      norm_num [roundTo_zero]
    unfold rarityStatsOf
    rw [hz, hz, hz]

/-- Witness for C10 at the punctuation-only text "!". -/
theorem no_alpha_tokens_full_report_witness :
    analyze_text_complexity env0 "!" = .report (analyzeReport env0 "!")
    ∧ (analyzeReport env0 "!").word_count = (env0.wordTokenize "!").length
    ∧ (analyzeReport env0 "!").sentence_count = (env0.sentTokenize "!").length
    ∧ ((env0.sentTokenize "!").length < 2 →
        (analyzeReport env0 "!").avg_jaccard = 1)
    ∧ (analyzeReport env0 "!").avg_consonants = 0
    ∧ (analyzeReport env0 "!").diversity = 0
    ∧ (analyzeReport env0 "!").rare_ratio = 0
    ∧ (analyzeReport env0 "!").content_ratio = 0
    ∧ (analyzeReport env0 "!").pos_graph = none
    ∧ (analyzeReport env0 "!").len_graph = none
    ∧ (analyzeReport env0 "!").freq_graph = none
    ∧ (analyzeReport env0 "!").rarity_stats = ⟨0, 0, 0⟩ :=
  no_alpha_tokens_full_report env0 "!" (by decide) (by decide)
